import Mathlib

/-!
Verification of the image-transform utilities of `01_CARE/transforms.py`
(normalize / denormalize, the rotate-and-flip primitive `_flip_and_rotate`,
and the seeded paired augmentation `augment_batch`).

Numpy arrays of at least two dimensions are modelled by `CARE.NDArray`:
a list of leading (batch/channel) axis lengths, the two spatial axis
lengths `rows`/`cols` (the last two numpy axes), and the data laid out as
a stack of 2-D matrices (row-major, one matrix per leading multi-index).
`np.rot90(·, k, axes=(-2,-1))` and `np.flip(·, axis=-1)` act on each
spatial plane independently and leave the leading axes untouched, which
this representation renders directly.

numpy's `np.random.default_rng` / `Generator.integers` are external
library code; they are modelled by their documented interface `CARE.RNG`:
a generator state deterministically initialised from a seed, and a pure
draw function returning the value together with the advanced state.
-/

namespace CARE

/-- A numeric ndarray with at least two dimensions: `lead` are the
leading (batch/channel) axis lengths, `rows × cols` the last two
(spatial) axis lengths, and `mats` the stack of spatial planes,
one matrix (list of rows) per leading multi-index, in row-major order. -/
structure NDArray (α : Type) where
  lead : List Nat
  rows : Nat
  cols : Nat
  mats : List (List (List α))
  deriving Repr, DecidableEq

/-- Well-formedness: the data agrees with the shape metadata. -/
def NDArray.wf {α : Type} (x : NDArray α) : Prop :=
  x.mats.length = x.lead.prod ∧
    ∀ m ∈ x.mats, m.length = x.rows ∧ ∀ row ∈ m, row.length = x.cols

instance {α : Type} (x : NDArray α) : Decidable x.wf := by
  unfold NDArray.wf; exact inferInstance

/-- Elementwise map (numpy broadcasting of a scalar operation). -/
def NDArray.map {α β : Type} (f : α → β) (x : NDArray α) : NDArray β :=
  ⟨x.lead, x.rows, x.cols, x.mats.map (List.map (List.map f))⟩

/-- `normalize(image, mean, std) = (image - mean) / std`
(`transforms.py`, elementwise over the array; scalars are modelled by
exact rationals in place of IEEE floats). -/
def normalize (image : NDArray ℚ) (mean : ℚ := 0) (std : ℚ := 1) : NDArray ℚ :=
  image.map (fun v => (v - mean) / std)

/-- `denormalize(image, mean, std) = image * std + mean` (`transforms.py`). -/
def denormalize (image : NDArray ℚ) (mean : ℚ := 0) (std : ℚ := 1) : NDArray ℚ :=
  image.map (fun v => v * std + mean)

/-- The 2-D matrix underlying one spatial plane: `np.flip(·, axis=-1)`
reverses the last axis, i.e. every row. -/
def flipCols {α : Type} (m : List (List α)) : List (List α) :=
  m.map List.reverse

/-- Swap of the last two axes (numpy's `transpose` with the last two axes
exchanged, as used inside `np.rot90`): column `j` of the input becomes
row `j` of the output.  `c` is the number of columns of the input. -/
def transposeMat {α : Type} (c : Nat) (m : List (List α)) : List (List α) :=
  (List.range c).map (fun j => m.filterMap (fun row => row.get? j))

/-- `np.rot90(image, k, axes=(-2,-1))`, following numpy's implementation:
`k %= 4`; `k = 0` returns a copy, `k = 1` is flip of the last axis then
axis swap, `k = 2` is flip of both axes, `k = 3` is axis swap then flip
of the last axis.  (Python's `%` on a positive divisor agrees with
`Int.emod`.)  A copy is the identity on pure values. -/
def rot90 {α : Type} (x : NDArray α) (k : Int) : NDArray α :=
  match (k % 4).toNat with
  | 0 => x
  | 1 => ⟨x.lead, x.cols, x.rows, x.mats.map (fun m => transposeMat x.cols (flipCols m))⟩
  | 2 => ⟨x.lead, x.rows, x.cols, x.mats.map (fun m => flipCols m.reverse)⟩
  | _ => ⟨x.lead, x.cols, x.rows, x.mats.map (fun m => (transposeMat x.cols m).map List.reverse)⟩

/-- `np.flip(x, axis=-1)`: mirror along the last axis. -/
def flipLastAxis {α : Type} (x : NDArray α) : NDArray α :=
  ⟨x.lead, x.rows, x.cols, x.mats.map flipCols⟩

/-- `_flip_and_rotate(image, rotate_state, flip_state)` from
`transforms.py`:
`rotated = np.rot90(image, k=rotate_state, axes=(-2, -1))`;
`flipped = np.flip(rotated, axis=-1) if flip_state == 1 else rotated`;
`return flipped.copy()` (the copy is the identity on pure values). -/
def _flip_and_rotate {α : Type} (image : NDArray α)
    (rotate_state : Int) (flip_state : Int) : NDArray α :=
  let rotated := rot90 image rotate_state
  let flipped := if flip_state = 1 then flipLastAxis rotated else rotated
  flipped

/-- Model of numpy's `Generator` interface (external library code):
`init seed` is `np.random.default_rng(seed=seed)` — a state determined
by the seed alone — and `integers s lo hi` draws one integer from
`[lo, hi)` returning the drawn value together with the advanced state. -/
structure RNG (σ : Type) where
  init : Int → σ
  integers : σ → Nat → Nat → Nat × σ

/-- `augment_batch(patch, target, seed)` from `transforms.py`:
`rng = np.random.default_rng(seed=seed)`;
`rotate_state = rng.integers(0, 4)`; `flip_state = rng.integers(0, 2)`;
returns `(_flip_and_rotate(patch, rotate_state, flip_state),
_flip_and_rotate(target, rotate_state, flip_state))`. -/
def augment_batch {α σ : Type} (G : RNG σ) (patch target : NDArray α)
    (seed : Int := 42) : NDArray α × NDArray α :=
  let rng := G.init seed
  let rotate_state := (G.integers rng 0 4).1
  let rng1 := (G.integers rng 0 4).2
  let flip_state := (G.integers rng1 0 2).1
  (_flip_and_rotate patch rotate_state flip_state,
   _flip_and_rotate target rotate_state flip_state)

/-- One call of `augment_batch` as observed by the process: the ambient
global generator state (type `τ`) is whatever other numpy code left
there; the source constructs a fresh local generator from the seed, so
the call neither reads nor writes the ambient state. -/
def augment_batch_call {α σ τ : Type} (G : RNG σ) (patch target : NDArray α)
    (seed : Int) (ambient : τ) : (NDArray α × NDArray α) × τ :=
  (augment_batch G patch target seed, ambient)

/-- `n` successive calls of `augment_batch` with the same arguments in
one process, threading the ambient state; returns the list of results. -/
def augment_batch_runs {α σ τ : Type} (G : RNG σ) (patch target : NDArray α)
    (seed : Int) : Nat → τ → List (NDArray α × NDArray α) × τ
  | 0, amb => ([], amb)
  | n + 1, amb =>
    let r := augment_batch_call G patch target seed amb
    let rest := augment_batch_runs G patch target seed n r.2
    (r.1 :: rest.1, rest.2)

/-- A concrete linear-congruential instance of the `RNG` interface,
used to evaluate the augmentation on concrete inputs. -/
def lcgRNG : RNG Nat where
  init := fun seed => (seed % 4294967296).toNat
  integers := fun s lo hi => (lo + s % (hi - lo), (s * 1664525 + 1013904223) % 4294967296)

/-- A rectangular `r × c` matrix given as a list of rows. -/
def Rect {α : Type} (r c : Nat) (m : List (List α)) : Prop :=
  m.length = r ∧ ∀ row ∈ m, row.length = c

/-- The optional entry of a matrix at row `i`, column `j`. -/
def entry? {α : Type} (m : List (List α)) (i j : Nat) : Option α :=
  (m[i]?).bind (fun row => row[j]?)

/-- The 2×2 patch of the spec's concrete scenario. -/
def patch22 : NDArray ℤ := ⟨[], 2, 2, [[[1, 2], [3, 4]]]⟩

/-- The 2×2 target of the spec's concrete scenario. -/
def target22 : NDArray ℤ := ⟨[], 2, 2, [[[5, 6], [7, 8]]]⟩

/-- A 2×3 array, spatially incompatible with `patch22`. -/
def target23 : NDArray ℤ := ⟨[], 2, 3, [[[5, 6, 7], [8, 9, 10]]]⟩

/-- A 3-D array: a stack of two non-square 2×3 spatial planes. -/
def stack23 : NDArray ℤ :=
  ⟨[2], 2, 3, [[[1, 2, 3], [4, 5, 6]], [[7, 8, 9], [10, 11, 12]]]⟩

/-- A concrete rational-valued array for normalization checks. -/
def ratArr : NDArray ℚ := ⟨[], 2, 2, [[[1, 2], [3, 4]]]⟩

lemma mem_of_getElem?_eq {α : Type} {l : List α} {i : Nat} {a : α}
    (h : l[i]? = some a) : a ∈ l := by
  have hi : i < l.length := by
    by_contra hc
    rw [List.getElem?_eq_none (Nat.le_of_not_lt hc)] at h
    exact Option.noConfusion h
  rw [List.getElem?_eq_getElem hi] at h
  cases h
  exact List.getElem_mem hi

lemma entry?_eq_none_of_le_row {α : Type} {m : List (List α)} {i : Nat}
    (h : m.length ≤ i) (j : Nat) : entry? m i j = none := by
  simp [entry?, List.getElem?_eq_none h]

lemma entry?_eq_none_of_le_col {α : Type} {r c : Nat} {m : List (List α)}
    (hm : Rect r c m) {j : Nat} (hj : c ≤ j) (i : Nat) : entry? m i j = none := by
  unfold entry?
  cases hrow : m[i]? with
  | none => rfl
  | some row =>
    have : row.length = c := hm.2 row (mem_of_getElem?_eq hrow)
    simp [List.getElem?_eq_none (this ▸ hj)]

lemma col_filterMap_getElem? {α : Type} {m : List (List α)} {j : Nat}
    (hm : ∀ row ∈ m, j < row.length) (i : Nat) :
    (m.filterMap (fun row => row.get? j))[i]? = entry? m i j := by
  induction m generalizing i with
  | nil => simp [entry?]
  | cons row rest ih =>
    have hrow : j < row.length := hm row (by simp)
    have hsome : row.get? j = some row[j] := by
      rw [List.get?_eq_getElem?, List.getElem?_eq_getElem hrow]
    rw [List.filterMap_cons, hsome]
    cases i with
    | zero =>
      simp [entry?, List.getElem?_eq_getElem hrow]
    | succ i' =>
      rw [List.getElem?_cons_succ]
      rw [ih (fun row h => hm row (by simp [h])) i']
      simp [entry?]

lemma col_filterMap_length {α : Type} {m : List (List α)} {j : Nat}
    (hm : ∀ row ∈ m, j < row.length) :
    (m.filterMap (fun row => row.get? j)).length = m.length := by
  induction m with
  | nil => simp
  | cons row rest ih =>
    have hrow : j < row.length := hm row (by simp)
    have hsome : row.get? j = some row[j] := by
      rw [List.get?_eq_getElem?, List.getElem?_eq_getElem hrow]
    rw [List.filterMap_cons, hsome]
    simp only [List.length_cons]
    rw [ih (fun row h => hm row (by simp [h]))]

lemma transposeMat_getElem? {α : Type} (c : Nat) (m : List (List α)) (j : Nat) :
    (transposeMat c m)[j]? =
      if j < c then some (m.filterMap (fun row => row.get? j)) else none := by
  unfold transposeMat
  rcases Nat.lt_or_ge j c with h | h
  · rw [List.getElem?_eq_getElem (by simpa using h)]
    simp [List.getElem_range, h]
  · rw [List.getElem?_eq_none (by simpa using h)]
    simp [Nat.not_lt_of_ge h]

lemma entry?_transposeMat {α : Type} {c : Nat} {m : List (List α)}
    (hm : ∀ row ∈ m, row.length = c) (a b : Nat) :
    entry? (transposeMat c m) a b = if a < c then entry? m b a else none := by
  unfold entry?
  rw [transposeMat_getElem?]
  by_cases ha : a < c
  · simp only [ha, if_true, Option.bind_some]
    exact col_filterMap_getElem? (fun row h => (hm row h) ▸ ha) b
  · simp [ha]

lemma Rect_flipCols {α : Type} {r c : Nat} {m : List (List α)}
    (hm : Rect r c m) : Rect r c (flipCols m) := by
  refine ⟨by simp [flipCols, hm.1], ?_⟩
  intro row hrow
  obtain ⟨row0, hrow0, rfl⟩ := List.mem_map.mp hrow
  simp [hm.2 row0 hrow0]

lemma Rect_transposeMat {α : Type} {r c : Nat} {m : List (List α)}
    (hm : Rect r c m) : Rect c r (transposeMat c m) := by
  refine ⟨by simp [transposeMat], ?_⟩
  intro row hrow
  obtain ⟨j, hj, rfl⟩ := List.mem_map.mp hrow
  have hj' : j < c := List.mem_range.mp hj
  rw [col_filterMap_length (fun row h => (hm.2 row h) ▸ hj')]
  exact hm.1

lemma entry?_flipCols {α : Type} {c : Nat} {m : List (List α)}
    (hm : ∀ row ∈ m, row.length = c) {j : Nat} (hj : j < c) (i : Nat) :
    entry? (flipCols m) i j = entry? m i (c - 1 - j) := by
  unfold entry? flipCols
  rw [List.getElem?_map]
  cases hrow : m[i]? with
  | none => rfl
  | some row =>
    have hlen : row.length = c := hm row (mem_of_getElem?_eq hrow)
    simp only [Option.map_some', Option.some_bind]
    rw [List.getElem?_reverse (by rw [hlen]; exact hj), hlen]

lemma entry?_rotCCW {α : Type} {r c : Nat} {m : List (List α)}
    (hm : Rect r c m) (i j : Nat) :
    entry? (transposeMat c (flipCols m)) i j =
      if i < c then entry? m j (c - 1 - i) else none := by
  have hflip : ∀ row ∈ flipCols m, row.length = c :=
    fun row h => (Rect_flipCols hm).2 row h
  rw [entry?_transposeMat hflip]
  by_cases hi : i < c
  · simp only [hi, if_true]
    exact entry?_flipCols hm.2 hi j
  · simp [hi]

lemma Rect_rotCCW {α : Type} {r c : Nat} {m : List (List α)}
    (hm : Rect r c m) : Rect c r (transposeMat c (flipCols m)) :=
  Rect_transposeMat (Rect_flipCols hm)

lemma Rect_ext {α : Type} {r c : Nat} {m m' : List (List α)}
    (hm : Rect r c m) (hm' : Rect r c m')
    (h : ∀ i j, entry? m i j = entry? m' i j) : m = m' := by
  apply List.ext_getElem?
  intro i
  rcases Nat.lt_or_ge i r with hi | hi
  · have h1 : i < m.length := hm.1 ▸ hi
    have h2 : i < m'.length := hm'.1 ▸ hi
    rw [List.getElem?_eq_getElem h1, List.getElem?_eq_getElem h2]
    congr 1
    apply List.ext_getElem?
    intro j
    have e1 : entry? m i j = m[i][j]? := by
      unfold entry?; rw [List.getElem?_eq_getElem h1]; rfl
    have e2 : entry? m' i j = m'[i][j]? := by
      unfold entry?; rw [List.getElem?_eq_getElem h2]; rfl
    rw [← e1, ← e2]
    exact h i j
  · rw [List.getElem?_eq_none (hm.1 ▸ hi), List.getElem?_eq_none (hm'.1 ▸ hi)]

lemma rotCCW_four {α : Type} {r c : Nat} {m : List (List α)} (hm : Rect r c m) :
    transposeMat r (flipCols (transposeMat c (flipCols
      (transposeMat r (flipCols (transposeMat c (flipCols m))))))) = m := by
  have hA : Rect c r (transposeMat c (flipCols m)) := Rect_rotCCW hm
  have hB : Rect r c _ := Rect_rotCCW hA
  have hC : Rect c r _ := Rect_rotCCW hB
  have hD : Rect r c _ := Rect_rotCCW hC
  apply Rect_ext hD hm
  intro i j
  rw [entry?_rotCCW hC, ]
  by_cases hi : i < r
  · simp only [hi, if_true]
    rw [entry?_rotCCW hB]
    by_cases hj : j < c
    · simp only [hj, if_true]
      rw [entry?_rotCCW hA]
      have hri : r - 1 - i < r := by omega
      simp only [hri, if_true]
      rw [entry?_rotCCW hm]
      have hcj : c - 1 - j < c := by omega
      simp only [hcj, if_true]
      have e1 : r - 1 - (r - 1 - i) = i := by omega
      have e2 : c - 1 - (c - 1 - j) = j := by omega
      rw [e1, e2]
    · have hcj : c ≤ j := Nat.le_of_not_lt hj
      simp only [hj, if_false]
      exact (entry?_eq_none_of_le_col hm hcj i).symm
  · have hri : r ≤ i := Nat.le_of_not_lt hi
    simp only [hi, if_false]
    exact (entry?_eq_none_of_le_row (hm.1 ▸ hri) j).symm

lemma Rect_reverse {α : Type} {r c : Nat} {m : List (List α)}
    (hm : Rect r c m) : Rect r c m.reverse :=
  ⟨by simp [hm.1], fun row h => hm.2 row (List.mem_reverse.mp h)⟩

lemma flipCols_flipCols {α : Type} (m : List (List α)) :
    flipCols (flipCols m) = m := by
  unfold flipCols
  rw [List.map_map]
  have h : ∀ row ∈ m, (List.reverse ∘ List.reverse) row = row := by
    intro row _
    simp [Function.comp]
  rw [List.map_congr_left h, List.map_id']

lemma map3_cancel {α : Type} (L : List (List (List α))) (f g : α → α)
    (h : ∀ v, g (f v) = v) :
    (L.map (List.map (List.map f))).map (List.map (List.map g)) = L := by
  have hrow : ∀ row : List α, (row.map f).map g = row := by
    intro row
    rw [List.map_map]
    have : ∀ v ∈ row, (g ∘ f) v = v := fun v _ => h v
    rw [List.map_congr_left this, List.map_id']
  have hmat : ∀ m : List (List α), (m.map (List.map f)).map (List.map g) = m := by
    intro m
    rw [List.map_map]
    have : ∀ row ∈ m, (List.map g ∘ List.map f) row = row := fun row _ => by
      simpa [Function.comp] using hrow row
    rw [List.map_congr_left this, List.map_id']
  rw [List.map_map]
  have : ∀ m ∈ L, (List.map (List.map g) ∘ List.map (List.map f)) m = m := fun m _ => by
    simpa [Function.comp] using hmat m
  rw [List.map_congr_left this, List.map_id']

lemma rot90_mod {α : Type} (x : NDArray α) (k : Int) :
    rot90 x (k % 4) = rot90 x k := by
  unfold rot90
  rw [Int.emod_emod_of_dvd k (dvd_refl 4)]

lemma rot90_lead {α : Type} (x : NDArray α) (k : Int) :
    (rot90 x k).lead = x.lead := by
  unfold rot90
  split <;> rfl

lemma far_lead {α : Type} (x : NDArray α) (r f : Int) :
    (_flip_and_rotate x r f).lead = x.lead := by
  unfold _flip_and_rotate
  by_cases hf : f = 1 <;> simp [hf, flipLastAxis, rot90_lead]

lemma far_rows {α : Type} (x : NDArray α) (r f : Int) :
    (_flip_and_rotate x r f).rows = (rot90 x r).rows := by
  unfold _flip_and_rotate
  by_cases hf : f = 1 <;> simp [hf, flipLastAxis]

lemma far_cols {α : Type} (x : NDArray α) (r f : Int) :
    (_flip_and_rotate x r f).cols = (rot90 x r).cols := by
  unfold _flip_and_rotate
  by_cases hf : f = 1 <;> simp [hf, flipLastAxis]

lemma wf_rot90 {α : Type} {x : NDArray α} (hx : x.wf) (k : Int) :
    (rot90 x k).wf := by
  obtain ⟨hlen, hrect⟩ := hx
  unfold rot90
  split
  · exact ⟨hlen, hrect⟩
  · refine ⟨by simpa using hlen, ?_⟩
    intro m hm
    obtain ⟨m0, hm0, rfl⟩ := List.mem_map.mp hm
    exact Rect_rotCCW (hrect m0 hm0)
  · refine ⟨by simpa using hlen, ?_⟩
    intro m hm
    obtain ⟨m0, hm0, rfl⟩ := List.mem_map.mp hm
    exact Rect_flipCols (Rect_reverse (hrect m0 hm0))
  · refine ⟨by simpa using hlen, ?_⟩
    intro m hm
    obtain ⟨m0, hm0, rfl⟩ := List.mem_map.mp hm
    exact Rect_flipCols (Rect_transposeMat (hrect m0 hm0))

lemma wf_flipLastAxis {α : Type} {x : NDArray α} (hx : x.wf) :
    (flipLastAxis x).wf := by
  obtain ⟨hlen, hrect⟩ := hx
  refine ⟨by simpa [flipLastAxis] using hlen, ?_⟩
  intro m hm
  obtain ⟨m0, hm0, rfl⟩ := List.mem_map.mp hm
  exact Rect_flipCols (hrect m0 hm0)

lemma wf_far {α : Type} {x : NDArray α} (hx : x.wf) (r f : Int) :
    (_flip_and_rotate x r f).wf := by
  unfold _flip_and_rotate
  by_cases hf : f = 1 <;> simp only [hf, if_true, if_false]
  · exact wf_flipLastAxis (wf_rot90 hx r)
  · exact wf_rot90 hx r

/-- C1: a single call of `augment_batch` applies one and the same
`(rotate_state, flip_state)` pair to both `patch` and `target`; in
particular, passing the same array as both patch and target yields two
identical outputs. -/
theorem augment_batch_joint_consistency {α σ : Type} (G : RNG σ)
    (patch target : NDArray α) (seed : Int) :
    (∃ rs fs : Nat, augment_batch G patch target seed =
      (_flip_and_rotate patch (↑rs) (↑fs), _flip_and_rotate target (↑rs) (↑fs))) ∧
    ∀ q : NDArray α, (augment_batch G q q seed).1 = (augment_batch G q q seed).2 :=
  ⟨⟨(G.integers (G.init seed) 0 4).1,
    (G.integers (G.integers (G.init seed) 0 4).2 0 2).1, rfl⟩, fun _ => rfl⟩

/-- C2: for a fixed seed, any number of `augment_batch` calls in one
process return the same output pair — the call constructs a fresh
generator from the seed, so the results neither depend on nor change the
ambient generator state. -/
theorem augment_batch_deterministic {α σ τ : Type} (G : RNG σ)
    (patch target : NDArray α) (seed : Int) (n : Nat) (amb : τ) :
    (augment_batch_runs G patch target seed n amb).1 =
      List.replicate n (augment_batch G patch target seed) ∧
    (augment_batch_runs G patch target seed n amb).2 = amb := by
  induction n generalizing amb with
  | zero => exact ⟨rfl, rfl⟩
  | succ n ih =>
    have h := ih amb
    refine ⟨?_, ?_⟩
    · show augment_batch G patch target seed ::
        (augment_batch_runs G patch target seed n amb).1 = _
      rw [h.1, List.replicate_succ]
    · show (augment_batch_runs G patch target seed n amb).2 = amb
      exact h.2

/-- C3: `denormalize` with the same `(mean, std)`, `std ≠ 0`, is the
exact algebraic inverse of `normalize` (exact rational arithmetic). -/
theorem denormalize_normalize_roundtrip (x : NDArray ℚ) (mean std : ℚ)
    (h : std ≠ 0) : denormalize (normalize x mean std) mean std = x := by
  obtain ⟨lead, rows, cols, mats⟩ := x
  show NDArray.mk lead rows cols
      ((mats.map (List.map (List.map fun v => (v - mean) / std))).map
        (List.map (List.map fun v => v * std + mean))) = _
  congr 1
  exact map3_cancel mats _ _ (fun v => by
    rw [div_mul_cancel₀ _ h, sub_add_cancel])

/-- C3 witness: round trip at a concrete array with `(mean, std) = (2, 3)`. -/
theorem denormalize_normalize_roundtrip_witness :
    (3 : ℚ) ≠ 0 ∧ denormalize (normalize ratArr 2 3) 2 3 = ratArr :=
  ⟨by norm_num, denormalize_normalize_roundtrip ratArr 2 3 (by norm_num)⟩

/-- C4: `_flip_and_rotate` rotates the last two axes counter-clockwise
by `rotate_state` quarter turns and only then applies the flip; on the
2×2 patch `[[1,2],[3,4]]` and target `[[5,6],[7,8]]` with
`rotate_state = 1`, `flip_state = 0` it returns `[[2,4],[1,3]]` and
`[[6,8],[5,7]]`. -/
theorem flip_and_rotate_ccw_concrete :
    (∀ (α : Type) (x : NDArray α) (k : Int),
        _flip_and_rotate x k 1 = flipLastAxis (rot90 x k)) ∧
    (∀ (α : Type) (x : NDArray α) (k : Int),
        _flip_and_rotate x k 0 = rot90 x k) ∧
    _flip_and_rotate patch22 1 0 = ⟨[], 2, 2, [[[2, 4], [1, 3]]]⟩ ∧
    _flip_and_rotate target22 1 0 = ⟨[], 2, 2, [[[6, 8], [5, 7]]]⟩ :=
  ⟨fun _ _ _ => rfl, fun _ _ _ => rfl, by decide, by decide⟩

/-- C5 counterexample: `augment_batch` performs no shape validation —
on a 2×2 patch and a spatially incompatible 2×3 target it silently
returns the two arrays, each transformed independently with the same
rotation/flip state (here `rotate_state = 2`, `flip_state = 1`),
instead of signalling an invalid-argument condition. -/
theorem augment_batch_shape_mismatch_cex :
    (patch22.rows, patch22.cols) ≠ (target23.rows, target23.cols) ∧
    augment_batch lcgRNG patch22 target23 42 =
      (_flip_and_rotate patch22 2 1, _flip_and_rotate target23 2 1) ∧
    augment_batch lcgRNG patch22 target23 42 =
      (⟨[], 2, 2, [[[3, 4], [1, 2]]]⟩, ⟨[], 2, 3, [[[8, 9, 10], [5, 6, 7]]]⟩) :=
  ⟨by decide, by decide, by decide⟩

/-- C5 (amended): for mismatched spatial shapes `augment_batch` does not
fail: it returns the pair of independently transformed arrays, both
transformed with the same drawn `(rotate_state, flip_state)`. -/
theorem augment_batch_shape_mismatch_silent {α σ : Type} (G : RNG σ)
    (patch target : NDArray α) (seed : Int)
    (_hmismatch : (patch.rows, patch.cols) ≠ (target.rows, target.cols)) :
    ∃ rs fs : Nat, augment_batch G patch target seed =
      (_flip_and_rotate patch (↑rs) (↑fs), _flip_and_rotate target (↑rs) (↑fs)) :=
  ⟨(G.integers (G.init seed) 0 4).1,
   (G.integers (G.integers (G.init seed) 0 4).2 0 2).1, rfl⟩

/-- C5 witness: the amended statement at the concrete mismatched pair. -/
theorem augment_batch_shape_mismatch_silent_witness :
    (patch22.rows, patch22.cols) ≠ (target23.rows, target23.cols) ∧
    ∃ rs fs : Nat, augment_batch lcgRNG patch22 target23 42 =
      (_flip_and_rotate patch22 (↑rs) (↑fs), _flip_and_rotate target23 (↑rs) (↑fs)) :=
  ⟨by decide,
   augment_batch_shape_mismatch_silent lcgRNG patch22 target23 42 (by decide)⟩

/-- C6 counterexample: invoked with `rotate_state = 5` and
`flip_state = 7` — both outside their documented ranges — the primitive
does not signal an invalid-argument condition: it returns the array
rotated by `5 mod 4 = 1` quarter turns with no flip. -/
theorem flip_and_rotate_invalid_state_cex :
    _flip_and_rotate patch22 5 7 = ⟨[], 2, 2, [[[2, 4], [1, 3]]]⟩ := by decide

/-- C6 (amended): `_flip_and_rotate` accepts every integer pair of
states without validation: `rotate_state` acts modulo 4 and any
`flip_state ≠ 1` acts as no flip. -/
theorem flip_and_rotate_accepts_invalid_states {α : Type} (x : NDArray α)
    (r f : Int) (hf : f ≠ 1) :
    _flip_and_rotate x r f = rot90 x (r % 4) := by
  unfold _flip_and_rotate
  simp [hf, rot90_mod]

/-- C6 witness: the amended statement at out-of-range states `(5, 7)`. -/
theorem flip_and_rotate_accepts_invalid_states_witness :
    ((7 : Int) ≠ 1) ∧ _flip_and_rotate patch22 5 7 = rot90 patch22 (5 % 4) :=
  ⟨by decide, flip_and_rotate_accepts_invalid_states patch22 5 7 (by decide)⟩

/-- C7: four successive applications of `_flip_and_rotate` with
`rotate_state = 1`, `flip_state = 0` return the original array exactly
(the quarter turn generates a group of order 4). -/
theorem flip_and_rotate_four_fold {α : Type} (x : NDArray α) (hx : x.wf) :
    _flip_and_rotate (_flip_and_rotate (_flip_and_rotate
      (_flip_and_rotate x 1 0) 1 0) 1 0) 1 0 = x := by
  obtain ⟨lead, rows, cols, mats⟩ := x
  show NDArray.mk lead rows cols
      ((((mats.map (fun m => transposeMat cols (flipCols m))).map
          (fun m => transposeMat rows (flipCols m))).map
          (fun m => transposeMat cols (flipCols m))).map
          (fun m => transposeMat rows (flipCols m))) = NDArray.mk lead rows cols mats
  congr 1
  rw [List.map_map, List.map_map, List.map_map]
  refine (List.map_congr_left ?_).trans (List.map_id' mats)
  intro m hm
  have hrect : Rect rows cols m := hx.2 m hm
  simpa [Function.comp] using rotCCW_four hrect

/-- C7 witness: the four-fold rotation identity at a concrete 3-D array
with two non-square 2×3 spatial planes. -/
theorem flip_and_rotate_four_fold_witness :
    stack23.wf ∧ _flip_and_rotate (_flip_and_rotate (_flip_and_rotate
      (_flip_and_rotate stack23 1 0) 1 0) 1 0) 1 0 = stack23 :=
  ⟨by decide, flip_and_rotate_four_fold stack23 (by decide)⟩

/-- C8: applying `_flip_and_rotate` with `rotate_state = 0`,
`flip_state = 1` twice returns the original array exactly (the last-axis
flip is an involution). -/
theorem flip_and_rotate_flip_involution {α : Type} (x : NDArray α) :
    _flip_and_rotate (_flip_and_rotate x 0 1) 0 1 = x := by
  obtain ⟨lead, rows, cols, mats⟩ := x
  show NDArray.mk lead rows cols ((mats.map flipCols).map flipCols) =
    NDArray.mk lead rows cols mats
  congr 1
  rw [List.map_map]
  have h : ∀ m ∈ mats, (flipCols ∘ flipCols) m = m := fun m _ => by
    simpa [Function.comp] using flipCols_flipCols m
  rw [List.map_congr_left h, List.map_id']

/-- C9: `_flip_and_rotate` preserves the leading axes and
well-formedness; `rotate_state` 1 or 3 swaps the last two axis lengths,
`rotate_state` 0 or 2 preserves them, for any flip state. -/
theorem flip_and_rotate_shapes {α : Type} (x : NDArray α) (hx : x.wf)
    (r f : Int) :
    (_flip_and_rotate x r f).lead = x.lead ∧
    (_flip_and_rotate x r f).wf ∧
    ((r = 1 ∨ r = 3) → (_flip_and_rotate x r f).rows = x.cols ∧
      (_flip_and_rotate x r f).cols = x.rows) ∧
    ((r = 0 ∨ r = 2) → (_flip_and_rotate x r f).rows = x.rows ∧
      (_flip_and_rotate x r f).cols = x.cols) := by
  refine ⟨far_lead x r f, wf_far hx r f, ?_, ?_⟩
  · rintro (rfl | rfl)
    · exact ⟨far_rows x 1 f, far_cols x 1 f⟩
    · exact ⟨far_rows x 3 f, far_cols x 3 f⟩
  · rintro (rfl | rfl)
    · exact ⟨far_rows x 0 f, far_cols x 0 f⟩
    · exact ⟨far_rows x 2 f, far_cols x 2 f⟩

/-- C9 witness: the shape statement at a concrete non-square 3-D array
with `rotate_state = 1`, `flip_state = 0`. -/
theorem flip_and_rotate_shapes_witness :
    stack23.wf ∧
    ((_flip_and_rotate stack23 1 0).lead = stack23.lead ∧
     (_flip_and_rotate stack23 1 0).wf ∧
     (((1 : Int) = 1 ∨ (1 : Int) = 3) →
       (_flip_and_rotate stack23 1 0).rows = stack23.cols ∧
       (_flip_and_rotate stack23 1 0).cols = stack23.rows) ∧
     (((1 : Int) = 0 ∨ (1 : Int) = 2) →
       (_flip_and_rotate stack23 1 0).rows = stack23.rows ∧
       (_flip_and_rotate stack23 1 0).cols = stack23.cols)) :=
  ⟨by decide, flip_and_rotate_shapes stack23 (by decide) 1 0⟩

/-- C10: `_flip_and_rotate` is total and periodic in `rotate_state` with
period 4 (numpy reduces `k` modulo 4), and every `flip_state` other
than 1 acts as no flip. -/
theorem flip_and_rotate_total_mod4 {α : Type} (x : NDArray α) (r f : Int) :
    _flip_and_rotate x r f =
      _flip_and_rotate x (r % 4) (if f = 1 then 1 else 0) := by
  unfold _flip_and_rotate
  rw [rot90_mod]
  by_cases hf : f = 1
  · simp [hf]
  · simp [hf]

end CARE
